import Mathlib

/-!
Shallow embedding of the Pivot ITM trading system (parts 1–3) and proofs of
the spec's claims about it.  Source functions are translated into pure Lean
functions; module-level mutable state becomes an explicit `SessionState`
record, and upstream API calls become explicit oracle parameters (a list of
per-attempt outcomes for the retry loop, an `Option` for a single fetch).
Prices and timestamps are rationals; dates are integers (day indices).
-/

namespace PivotITM

/-! ## Configuration constants (part1_config_and_utils.py) -/

/-- MAX_DAILY_TRADES = 2 -/
def MAX_DAILY_TRADES : ℕ := 2

/-- PIVOT_BUFFER_POINTS = 25 -/
def PIVOT_BUFFER_POINTS : ℚ := 25

/-- STOP_LOSS_PERCENT = 0.10 -/
def STOP_LOSS_PERCENT : ℚ := 1/10

/-- PROFIT_TARGET_PERCENT = 0.10 -/
def PROFIT_TARGET_PERCENT : ℚ := 1/10

/-- MAX_RETRIES = 3 -/
def MAX_RETRIES : ℕ := 3

/-- CIRCUIT_BREAKER_FAILURES = 5 -/
def CIRCUIT_BREAKER_FAILURES : ℕ := 5

/-- CIRCUIT_BREAKER_TIMEOUT_SEC = 300 -/
def CIRCUIT_BREAKER_TIMEOUT_SEC : ℚ := 300

/-- MIN_OPTION_PRICE = 1.0 -/
def MIN_OPTION_PRICE : ℚ := 1

/-- MAX_OPTION_PRICE = 1000.0 -/
def MAX_OPTION_PRICE : ℚ := 1000

/-- MIN_SPOT_PRICE = 15000 -/
def MIN_SPOT_PRICE : ℚ := 15000

/-- MAX_SPOT_PRICE = 30000 -/
def MAX_SPOT_PRICE : ℚ := 30000

/-- NIFTY_LOT_SIZE = 65 -/
def NIFTY_LOT_SIZE : ℕ := 65

/-- TRADE_LOTS = 1 -/
def TRADE_LOTS : ℕ := 1

/-- EOD_EXIT = "15:20", modelled as minutes since midnight. -/
def EOD_EXIT : ℚ := 15 * 60 + 20

/-! ## Circuit breaker (part1_config_and_utils.py, class CircuitBreaker) -/

/-- State of `CircuitBreaker`: `failure_count`, `threshold`, `timeout`,
`opened_at` (a wall-clock timestamp or `None`). -/
structure CircuitBreaker where
  failure_count : ℕ
  threshold : ℕ
  timeout : ℚ
  opened_at : Option ℚ
  deriving DecidableEq

/-- `CircuitBreaker(threshold, timeout)` constructor: zero failures, not open. -/
def CircuitBreaker.init (threshold : ℕ) (timeout : ℚ) : CircuitBreaker :=
  { failure_count := 0, threshold := threshold, timeout := timeout, opened_at := none }

/-- `record_failure`: increment the count; if it reaches the threshold, stamp
`opened_at` with the current wall-clock time `now`. -/
def CircuitBreaker.record_failure (b : CircuitBreaker) (now : ℚ) : CircuitBreaker :=
  if b.failure_count + 1 ≥ b.threshold then
    { b with failure_count := b.failure_count + 1, opened_at := some now }
  else
    { b with failure_count := b.failure_count + 1 }

/-- `record_success`: reset the count to 0 and clear `opened_at`. -/
def CircuitBreaker.record_success (b : CircuitBreaker) : CircuitBreaker :=
  { b with failure_count := 0, opened_at := none }

/-- `is_open(now)`: returns the boolean result and the (possibly reset) breaker.
`if not self.opened_at` in Python is true when `opened_at` is `None` or the
float `0.0`, hence the explicit zero test. -/
def CircuitBreaker.is_open (b : CircuitBreaker) (now : ℚ) : Bool × CircuitBreaker :=
  match b.opened_at with
  | none => (false, b)
  | some t =>
    if t = 0 then (false, b)
    else if now - t > b.timeout then
      (false, { b with failure_count := 0, opened_at := none })
    else (true, b)

/-- One externally triggered breaker interaction: a guarded operation fails at
time `now`, succeeds, or the caller polls `is_open` at time `now`. -/
inductive CBOp where
  | fail (now : ℚ)
  | succ
  | query (now : ℚ)

/-- Apply one breaker interaction to the breaker state. -/
def CBOp.apply (b : CircuitBreaker) : CBOp → CircuitBreaker
  | .fail now => b.record_failure now
  | .succ => b.record_success
  | .query now => (b.is_open now).2

/-- Run a sequence of breaker interactions. -/
def runCBOps (b : CircuitBreaker) (ops : List CBOp) : CircuitBreaker :=
  ops.foldl CBOp.apply b

/-- Record a failure at each time in `ts`, in order. -/
def recordFailures (b : CircuitBreaker) (ts : List ℚ) : CircuitBreaker :=
  ts.foldl CircuitBreaker.record_failure b

/-- Every timestamp mentioned by an interaction is positive (wall-clock
`time.time()` values are). -/
def CBOp.posTime : CBOp → Prop
  | .fail now => 0 < now
  | .succ => True
  | .query now => 0 < now

/-- Breaker state invariant: `opened_at` is stamped exactly when the failure
count has reached the threshold, and any stamp is a positive time. -/
def CBInv (b : CircuitBreaker) : Prop :=
  (b.opened_at.isSome ↔ b.threshold ≤ b.failure_count) ∧
  (∀ t, b.opened_at = some t → 0 < t)

/-! ## Resilient price fetch (part2_strategy_logic.py, fetch_spot_price /
fetch_option_price)

A single upstream attempt is an `Option ℚ`: `none` models an exception from
`groww.get_ltp` (or a missing key), `some v` models a returned quote.  The
retry loop consumes one outcome per attempt; the outcome list has length
`MAX_RETRIES` in the deployed configuration. -/

/-- Result of one fetch call: the returned value (`none` = Python `None`),
plus how many `record_success` / `record_failure` calls were made on the
breaker and how many upstream attempts were performed. -/
structure FetchResult where
  value : Option ℚ
  successes : ℕ
  failures : ℕ
  attempts : ℕ
  deriving DecidableEq

/-- The retry loop body shared by `fetch_spot_price` and `fetch_option_price`:
on each attempt, an exception or an out-of-range value consumes a retry
(`continue`), except on the last attempt where it records one breaker failure
and returns `None`; an in-range value records one breaker success and is
returned immediately. -/
def fetchAttempts (lo hi : ℚ) : List (Option ℚ) → FetchResult
  | [] => ⟨none, 0, 0, 0⟩
  | [o] =>
    match o with
    | some v => if lo ≤ v ∧ v ≤ hi then ⟨some v, 1, 0, 1⟩ else ⟨none, 0, 1, 1⟩
    | none => ⟨none, 0, 1, 1⟩
  | o :: o2 :: rest =>
    match o with
    | some v =>
      if lo ≤ v ∧ v ≤ hi then ⟨some v, 1, 0, 1⟩
      else
        let r := fetchAttempts lo hi (o2 :: rest)
        ⟨r.value, r.successes, r.failures, r.attempts + 1⟩
    | none =>
      let r := fetchAttempts lo hi (o2 :: rest)
      ⟨r.value, r.successes, r.failures, r.attempts + 1⟩

/-- Full fetch call: consult the breaker first (`is_open` may auto-reset it);
if open, fail fast with no attempt and no breaker record.  Otherwise run the
retry loop and apply its breaker records to the breaker state (`now` stands
for the wall-clock time a failure would be stamped with). -/
def fetchPriceB (b : CircuitBreaker) (now lo hi : ℚ) (outs : List (Option ℚ)) :
    FetchResult × CircuitBreaker :=
  let q := b.is_open now
  if q.1 then (⟨none, 0, 0, 0⟩, q.2)
  else
    let r := fetchAttempts lo hi outs
    let b2 :=
      if 0 < r.successes then q.2.record_success
      else if 0 < r.failures then q.2.record_failure now
      else q.2
    (r, b2)

/-- `fetch_spot_price`: the retry loop with the spot plausibility range. -/
def fetch_spot_price (b : CircuitBreaker) (now : ℚ) (outs : List (Option ℚ)) :
    FetchResult × CircuitBreaker :=
  fetchPriceB b now MIN_SPOT_PRICE MAX_SPOT_PRICE outs

/-- `fetch_option_price`: the retry loop with the option plausibility range. -/
def fetch_option_price (b : CircuitBreaker) (now : ℚ) (outs : List (Option ℚ)) :
    FetchResult × CircuitBreaker :=
  fetchPriceB b now MIN_OPTION_PRICE MAX_OPTION_PRICE outs

/-- An attempt outcome that does not produce an in-range value: an exception
or an out-of-range quote. -/
def failingOutcome (lo hi : ℚ) (o : Option ℚ) : Prop :=
  o = none ∨ ∃ v, o = some v ∧ ¬(lo ≤ v ∧ v ≤ hi)

/-! ## Data model -/

/-- Daily bias values (`config.daily_bias` strings); Python `None` (UNSET) is
modelled as `Option Bias = none`. -/
inductive Bias where
  | bullish
  | bearish
  | neutral
  deriving DecidableEq

/-- Trade direction ("CALL" / "PUT"). -/
inductive Direction where
  | call
  | put
  deriving DecidableEq

/-- A daily or intraday candle (the fields the strategy reads).  `date` is an
abstract day index. -/
structure Candle where
  date : ℤ
  openP : ℚ
  high : ℚ
  low : ℚ
  close : ℚ
  deriving DecidableEq

/-- An open position (`config.current_position` dict, the fields the logic
reads). -/
structure Position where
  direction : Direction
  entry_price : ℚ
  quantity : ℕ
  invested : ℚ
  profit_target : ℚ
  stop_loss : ℚ
  pivot : ℚ
  deriving DecidableEq

/-- The module-level daily session state of part1_config_and_utils.py. -/
structure SessionState where
  executed_trades_count : ℕ
  current_position : Option Position
  daily_bias : Option Bias
  daily_pivot_point : Option ℚ
  last_trading_date : Option ℤ
  deriving DecidableEq

/-- Fresh state at process start: zero trades, no position, no bias, no
pivot, no recorded trading date. -/
def SessionState.init : SessionState :=
  { executed_trades_count := 0, current_position := none, daily_bias := none,
    daily_pivot_point := none, last_trading_date := none }

/-- Number of open positions held by the session (the source keeps at most
one in the single `current_position` variable). -/
def SessionState.openCount (s : SessionState) : ℕ :=
  if s.current_position.isSome then 1 else 0

/-! ## Pivot computation (part2_strategy_logic.py, fetch_and_calculate_pivot) -/

/-- Python `round(x, 2)` on an exact rational: round to 2 decimals, ties to
even. -/
def round2 (q : ℚ) : ℚ :=
  let x := q * 100
  let n := ⌊x⌋
  let frac := x - (n : ℚ)
  let r : ℤ :=
    if frac > 1/2 then n + 1
    else if frac < 1/2 then n
    else if n % 2 = 0 then n else n + 1
  (r : ℚ) / 100

/-- `fetch_and_calculate_pivot`: keep candles dated strictly before `today`,
sort ascending by date, take the last (most recent completed) one and return
`round((H + L + C) / 3, 2)`; `None` if the feed returned no candles or no
completed day exists. -/
def fetch_and_calculate_pivot (candles : List Candle) (today : ℤ) : Option ℚ :=
  if candles = [] then none
  else
    match ((candles.filter (fun c => c.date < today)).mergeSort
        (fun a b => a.date ≤ b.date)).getLast? with
    | none => none
    | some prev => some (round2 ((prev.high + prev.low + prev.close) / 3))

/-! ## Daily reset (part2_strategy_logic.py, reset_daily_state) -/

/-- `reset_daily_state`: a no-op when `last_trading_date` already equals
today; otherwise clear counters/position/bias, recompute the pivot from the
fetched daily candles, and record today as the last trading date (even when
the pivot computation failed). -/
def reset_daily_state (s : SessionState) (today : ℤ) (candles : List Candle) :
    SessionState :=
  if s.last_trading_date = some today then s
  else
    { executed_trades_count := 0, current_position := none, daily_bias := none,
      daily_pivot_point := fetch_and_calculate_pivot candles today,
      last_trading_date := some today }

/-! ## Bias determination (part2_strategy_logic.py, determine_daily_bias) -/

/-- `determine_daily_bias`: a no-op when the bias is already locked, the
pivot is missing, the opening-range window has not ended (`now < biasEnd`,
both in minutes since midnight), or the first 5-minute candle is not yet
available; otherwise lock BULLISH / BEARISH / NEUTRAL by comparing the
candle's close to the pivot. -/
def determine_daily_bias (s : SessionState) (now biasEnd : ℚ)
    (candle : Option Candle) : SessionState :=
  if s.daily_bias.isSome then s
  else
    match s.daily_pivot_point with
    | none => s
    | some piv =>
      if now < biasEnd then s
      else
        match candle with
        | none => s
        | some c =>
          if c.close > piv then { s with daily_bias := some .bullish }
          else if c.close < piv then { s with daily_bias := some .bearish }
          else { s with daily_bias := some .neutral }

/-! ## Entry trigger and strike selection (part2_strategy_logic.py) -/

/-- `is_in_pivot_zone`: spot within ±PIVOT_BUFFER_POINTS of the pivot. -/
def is_in_pivot_zone (spot pivot : ℚ) : Bool :=
  decide (pivot - PIVOT_BUFFER_POINTS ≤ spot ∧ spot ≤ pivot + PIVOT_BUFFER_POINTS)

/-- `calculate_itm_strike`: CALL → `int(spot // 100) * 100`,
PUT → `int((spot + 99) // 100) * 100` (Python `//` is floor division). -/
def calculate_itm_strike (spot : ℚ) (direction : Direction) : ℤ :=
  match direction with
  | .call => ⌊spot / 100⌋ * 100
  | .put => ⌊(spot + 99) / 100⌋ * 100

/-! ## Position lifecycle (part3_integrated.py) -/

/-- Exit reasons passed to `exit_position`. -/
inductive ExitReason where
  | stop_loss
  | profit_target
  | eod_exit
  deriving DecidableEq

/-- One row of the paper-sell / journal output produced by an exit. -/
structure ExitRec where
  price : ℚ
  reason : ExitReason
  deriving DecidableEq

/-- `can_enter_trade`: false when the daily cap is reached or a position is
already open. -/
def can_enter_trade (s : SessionState) : Bool :=
  if s.executed_trades_count ≥ MAX_DAILY_TRADES then false
  else if s.current_position.isSome then false
  else true

/-- `calculate_position_size`: zero for a non-positive price, otherwise the
fixed `NIFTY_LOT_SIZE * TRADE_LOTS`. -/
def calculate_position_size (option_price : ℚ) : ℕ :=
  if option_price ≤ 0 then 0 else NIFTY_LOT_SIZE * TRADE_LOTS

/-- `enter_position`: guard with `can_enter_trade`; read the option price
twice through `fetch_option_price` (outcome lists `out1`, `out2`, wall-clock
times `t1`, `t2`); abort when either read is `None` or non-positive or the
two reads diverge by more than 5% of the first; otherwise use the second read
as entry price, check the fixed quantity, submit the paper buy, increment the
trade counter and install the position.  Returns (new session state, breaker
state after both fetches, whether a buy order was submitted). -/
def enter_position (s : SessionState) (direction : Direction) (pivot : ℚ)
    (b : CircuitBreaker) (t1 t2 : ℚ) (out1 out2 : List (Option ℚ)) :
    SessionState × CircuitBreaker × Bool :=
  if can_enter_trade s = false then (s, b, false)
  else
    let f1 := fetch_option_price b t1 out1
    let f2 := fetch_option_price f1.2 t2 out2
    match f2.1.value, f1.1.value with
    | some confirm, some first =>
      if first ≤ 0 ∨ confirm ≤ 0 ∨ |confirm - first| / first > 5/100 then
        (s, f2.2, false)
      else
        let qty := calculate_position_size confirm
        if qty ≠ NIFTY_LOT_SIZE * TRADE_LOTS then (s, f2.2, false)
        else if qty = 0 then (s, f2.2, false)
        else
          ({ s with
              executed_trades_count := s.executed_trades_count + 1,
              current_position := some
                { direction := direction
                  entry_price := confirm
                  quantity := qty
                  invested := confirm * qty
                  profit_target := round2 (confirm * (1 + PROFIT_TARGET_PERCENT))
                  stop_loss := round2 (confirm * (1 - STOP_LOSS_PERCENT))
                  pivot := pivot } },
            f2.2, true)
    | _, _ => (s, f2.2, false)

/-- `exit_position`: a no-op without a position; otherwise emit the paper
sell / journal row and clear the position. -/
def exit_position (s : SessionState) (price : ℚ) (reason : ExitReason) :
    SessionState × Option ExitRec :=
  match s.current_position with
  | none => (s, none)
  | some _ => ({ s with current_position := none }, some ⟨price, reason⟩)

/-- The P&L percentage computed at exit and in the journal:
`((exit − entry) / entry) * 100`. -/
def pnl_percent (entry exitPrice : ℚ) : ℚ :=
  ((exitPrice - entry) / entry) * 100

/-- `check_stop_loss`: fetch the option price (`fetched`); skip the tick when
unavailable; exit with reason STOP_LOSS when the price is ≤ the stored stop. -/
def check_stop_loss (s : SessionState) (fetched : Option ℚ) :
    SessionState × Option ExitRec :=
  match s.current_position with
  | none => (s, none)
  | some p =>
    match fetched with
    | none => (s, none)
    | some price =>
      if price ≤ p.stop_loss then exit_position s price .stop_loss else (s, none)

/-- `check_profit_target`: exit with reason PROFIT_TARGET when the fetched
price is ≥ the stored target. -/
def check_profit_target (s : SessionState) (fetched : Option ℚ) :
    SessionState × Option ExitRec :=
  match s.current_position with
  | none => (s, none)
  | some p =>
    match fetched with
    | none => (s, none)
    | some price =>
      if price ≥ p.profit_target then exit_position s price .profit_target
      else (s, none)

/-- `force_eod_exit`: exit unconditionally; `exit_price = price if price else
entry_price`, i.e. the entry price stands in when the fresh quote is `None`
(or the falsy 0.0). -/
def force_eod_exit (s : SessionState) (fetched : Option ℚ) :
    SessionState × Option ExitRec :=
  match s.current_position with
  | none => (s, none)
  | some p =>
    let exitPrice :=
      match fetched with
      | some pr => if pr = 0 then p.entry_price else pr
      | none => p.entry_price
    exit_position s exitPrice .eod_exit

/-- The position-management block of one `run_trading_loop` iteration
(part3_integrated.py lines 356–370): while a position is open, the EOD-exit
check runs first (`now` in minutes since midnight, cutoff `EOD_EXIT`); only
on a pre-cutoff tick run `check_stop_loss` (fetch `fSL`) and then, if the
position survived, `check_profit_target` (fetch `fPT`); `fEod` is the fetch
used by the forced exit. -/
def monitorTick (s : SessionState) (now : ℚ) (fEod fSL fPT : Option ℚ) :
    SessionState × Option ExitRec :=
  match s.current_position with
  | none => (s, none)
  | some _ =>
    if now ≥ EOD_EXIT then force_eod_exit s fEod
    else
      let r1 := check_stop_loss s fSL
      match r1.1.current_position with
      | none => r1
      | some _ => check_profit_target r1.1 fPT

/-! ## Session step relation (run_trading_loop, part3_integrated.py)

One loop iteration performs at most one state-changing operation on the
session: the daily reset, a bias-determination attempt, the monitoring block,
or an entry attempt.  The entry constructor carries the loop's guards from
lines 394–451: a directional (non-NEUTRAL) locked bias, a computed pivot, no
open position, and the direction derived from the bias
(`direction = "CALL" if daily_bias == "BULLISH" else "PUT"`). -/
inductive Step : SessionState → SessionState → Prop
  | reset (s : SessionState) (today : ℤ) (candles : List Candle) :
      Step s (reset_daily_state s today candles)
  | setBias (s : SessionState) (now biasEnd : ℚ) (candle : Option Candle) :
      Step s (determine_daily_bias s now biasEnd candle)
  | monitor (s : SessionState) (now : ℚ) (fEod fSL fPT : Option ℚ) :
      Step s (monitorTick s now fEod fSL fPT).1
  | enter (s : SessionState) (bias : Bias) (piv : ℚ) (b : CircuitBreaker)
      (t1 t2 : ℚ) (out1 out2 : List (Option ℚ))
      (hb : s.daily_bias = some bias) (hnn : bias ≠ .neutral)
      (hpiv : s.daily_pivot_point = some piv)
      (hpos : s.current_position = none) :
      Step s (enter_position s
        (if bias = .bullish then .call else .put) piv b t1 t2 out1 out2).1

/-- The bias a position's direction certifies: a CALL is entered only on a
BULLISH day, a PUT only on a BEARISH day. -/
def Direction.impliedBias : Direction → Bias
  | .call => .bullish
  | .put => .bearish

/-- Session risk invariant: the trade count respects the daily cap; an open
position implies at least one executed trade; at most one position is open;
and an open position's direction matches the locked daily bias (CALL ↔
BULLISH, PUT ↔ BEARISH). -/
def SessionInv (s : SessionState) : Prop :=
  s.executed_trades_count ≤ MAX_DAILY_TRADES ∧
  (s.current_position.isSome → 1 ≤ s.executed_trades_count) ∧
  s.openCount ≤ 1 ∧
  (match s.current_position with
   | none => True
   | some p => s.daily_bias = some p.direction.impliedBias)

/-! ## Helper lemmas -/

lemma fetchAttempts_inRange (lo hi : ℚ) :
    ∀ (outs : List (Option ℚ)) (v : ℚ),
      (fetchAttempts lo hi outs).value = some v → lo ≤ v ∧ v ≤ hi := by
  intro outs
  induction outs with
  | nil => intro v h; simp [fetchAttempts] at h
  | cons o rest ih =>
    intro v h
    cases rest with
    | nil =>
      cases o with
      | none => simp [fetchAttempts] at h
      | some w =>
        by_cases hw : lo ≤ w ∧ w ≤ hi
        · simp only [fetchAttempts, if_pos hw] at h
          cases h
          exact hw
        · simp [fetchAttempts, hw] at h
    | cons o2 rest2 =>
      cases o with
      | none =>
        simp only [fetchAttempts] at h
        exact ih v h
      | some w =>
        by_cases hw : lo ≤ w ∧ w ≤ hi
        · simp only [fetchAttempts, if_pos hw] at h
          cases h
          exact hw
        · simp only [fetchAttempts, if_neg hw] at h
          exact ih v h

lemma fetchPriceB_inRange (b : CircuitBreaker) (now lo hi : ℚ)
    (outs : List (Option ℚ)) (v : ℚ)
    (h : (fetchPriceB b now lo hi outs).1.value = some v) : lo ≤ v ∧ v ≤ hi := by
  unfold fetchPriceB at h
  by_cases hq : (b.is_open now).1
  · simp [hq] at h
  · simp only [hq, if_false, Bool.false_eq_true] at h
    exact fetchAttempts_inRange lo hi outs v h

lemma fetch_option_price_inRange (b : CircuitBreaker) (now : ℚ)
    (outs : List (Option ℚ)) (v : ℚ)
    (h : (fetch_option_price b now outs).1.value = some v) :
    MIN_OPTION_PRICE ≤ v ∧ v ≤ MAX_OPTION_PRICE :=
  fetchPriceB_inRange b now _ _ outs v h

lemma exit_position_state (s : SessionState) (pr : ℚ) (r : ExitReason) :
    (exit_position s pr r).1 = s ∨
      (exit_position s pr r).1 = { s with current_position := none } := by
  unfold exit_position
  cases hc : s.current_position with
  | none => left; rfl
  | some p => right; rfl

lemma force_eod_exit_state (s : SessionState) (f : Option ℚ) :
    (force_eod_exit s f).1 = s ∨
      (force_eod_exit s f).1 = { s with current_position := none } := by
  unfold force_eod_exit
  cases hc : s.current_position with
  | none => left; rfl
  | some p => exact exit_position_state s _ _

lemma check_stop_loss_state (s : SessionState) (f : Option ℚ) :
    (check_stop_loss s f).1 = s ∨
      (check_stop_loss s f).1 = { s with current_position := none } := by
  unfold check_stop_loss
  cases hc : s.current_position with
  | none => left; rfl
  | some p =>
    cases f with
    | none => left; rfl
    | some price =>
      by_cases hp : price ≤ p.stop_loss
      · simp only [if_pos hp]
        exact exit_position_state s _ _
      · simp only [if_neg hp]
        exact Or.inl trivial

lemma check_profit_target_state (s : SessionState) (f : Option ℚ) :
    (check_profit_target s f).1 = s ∨
      (check_profit_target s f).1 = { s with current_position := none } := by
  unfold check_profit_target
  cases hc : s.current_position with
  | none => left; rfl
  | some p =>
    cases f with
    | none => left; rfl
    | some price =>
      by_cases hp : price ≥ p.profit_target
      · simp only [if_pos hp]
        exact exit_position_state s _ _
      · simp only [if_neg hp]
        exact Or.inl trivial

lemma monitorTick_state (s : SessionState) (now : ℚ) (f1 f2 f3 : Option ℚ) :
    (monitorTick s now f1 f2 f3).1 = s ∨
      (monitorTick s now f1 f2 f3).1 = { s with current_position := none } := by
  unfold monitorTick
  cases hc : s.current_position with
  | none => left; rfl
  | some p =>
    by_cases ht : now ≥ EOD_EXIT
    · simp only [if_pos ht]
      exact force_eod_exit_state s f1
    · simp only [if_neg ht]
      rcases check_stop_loss_state s f2 with h1 | h1
      · rw [h1, hc]
        exact check_profit_target_state s f3
      · right
        rw [h1,
          show ({ s with current_position := none } : SessionState).current_position
              = none from rfl]
        exact h1

lemma enter_position_state (s : SessionState) (dir : Direction) (piv : ℚ)
    (b : CircuitBreaker) (t1 t2 : ℚ) (o1 o2 : List (Option ℚ)) :
    (enter_position s dir piv b t1 t2 o1 o2).1 = s ∨
    (can_enter_trade s = true ∧ ∃ pr : ℚ, 1 ≤ pr ∧ pr ≤ 1000 ∧
      (enter_position s dir piv b t1 t2 o1 o2).1 =
        { s with
            executed_trades_count := s.executed_trades_count + 1,
            current_position := some
              { direction := dir, entry_price := pr,
                quantity := NIFTY_LOT_SIZE * TRADE_LOTS,
                invested := pr * (NIFTY_LOT_SIZE * TRADE_LOTS : ℕ),
                profit_target := round2 (pr * (1 + PROFIT_TARGET_PERCENT)),
                stop_loss := round2 (pr * (1 - STOP_LOSS_PERCENT)),
                pivot := piv } }) := by
  unfold enter_position
  by_cases hce : can_enter_trade s = false
  · simp [hce]
  · rw [if_neg hce]
    dsimp only
    cases hv2 : (fetch_option_price (fetch_option_price b t1 o1).2 t2 o2).1.value with
    | none =>
      cases hv1 : (fetch_option_price b t1 o1).1.value <;> exact Or.inl rfl
    | some confirm =>
      cases hv1 : (fetch_option_price b t1 o1).1.value with
      | none => exact Or.inl rfl
      | some first =>
        have hcr := fetch_option_price_inRange _ t2 o2 confirm hv2
        have hc1 : (1:ℚ) ≤ confirm := hcr.1
        have hc1000 : confirm ≤ 1000 := hcr.2
        dsimp only
        by_cases hg : first ≤ 0 ∨ confirm ≤ 0 ∨ |confirm - first| / first > 5/100
        · rw [if_pos hg]
          exact Or.inl rfl
        · rw [if_neg hg]
          have hqty : calculate_position_size confirm = NIFTY_LOT_SIZE * TRADE_LOTS := by
            unfold calculate_position_size
            rw [if_neg (by linarith : ¬confirm ≤ 0)]
          right
          refine ⟨by simpa using hce, confirm, hc1, hc1000, ?_⟩
          rw [if_neg (by rw [hqty]; simp), if_neg (by rw [hqty]; simp [NIFTY_LOT_SIZE, TRADE_LOTS])]
          rw [hqty]

lemma can_enter_trade_true (s : SessionState) (h : can_enter_trade s = true) :
    s.executed_trades_count < MAX_DAILY_TRADES ∧ s.current_position = none := by
  unfold can_enter_trade at h
  by_cases h1 : s.executed_trades_count ≥ MAX_DAILY_TRADES
  · simp [h1] at h
  · refine ⟨by omega, ?_⟩
    by_cases h2 : s.current_position.isSome
    · simp [h1, h2] at h
    · exact Option.not_isSome_iff_eq_none.mp h2

lemma sessionInv_clear (s : SessionState) (hInv : SessionInv s) :
    SessionInv { s with current_position := none } := by
  refine ⟨hInv.1, ?_, ?_, trivial⟩
  · intro h
    simp [Option.isSome] at h
  · simp [SessionState.openCount]

lemma sessionInv_set_bias (s : SessionState) (hInv : SessionInv s)
    (hpos : s.current_position = none) (b : Bias) :
    SessionInv { s with daily_bias := some b } := by
  obtain ⟨h1, h2, h3, _⟩ := hInv
  refine ⟨h1, h2, ?_, ?_⟩
  · simpa [SessionState.openCount] using h3
  · show (match ({ s with daily_bias := some b } : SessionState).current_position with
      | none => True
      | some p => ({ s with daily_bias := some b } : SessionState).daily_bias
          = some p.direction.impliedBias)
    rw [show ({ s with daily_bias := some b } : SessionState).current_position
        = s.current_position from rfl, hpos]
    trivial

/-- Claim C1: session risk invariants hold after every operation within one
trading day: `executed_trades_count` never exceeds MAX_DAILY_TRADES; an open
position implies at least one executed trade; at most one position is open at
any time; and an entered position's direction is CALL when the daily bias is
BULLISH and PUT when it is BEARISH. -/
theorem C1_session_invariants (s s' : SessionState)
    (hInv : SessionInv s) (h : Step s s') : SessionInv s' := by
  cases h with
  | reset today candles =>
    unfold reset_daily_state
    split
    · exact hInv
    · exact ⟨by norm_num [MAX_DAILY_TRADES], by intro h; simp [Option.isSome] at h,
        by simp [SessionState.openCount], trivial⟩
  | setBias now biasEnd candle =>
    unfold determine_daily_bias
    cases hdb : s.daily_bias with
    | some b0 =>
      simp only [hdb, Option.isSome, if_true]
      exact hInv
    | none =>
      have hpos : s.current_position = none := by
        cases hp : s.current_position with
        | none => rfl
        | some p =>
          have h4 := hInv.2.2.2
          rw [hp] at h4
          rw [hdb] at h4
          cases h4
      simp only [hdb, Option.isSome]
      cases hdp : s.daily_pivot_point with
      | none => simpa using hInv
      | some piv =>
        by_cases ht : now < biasEnd
        · simpa [ht] using hInv
        · cases candle with
          | none => simpa [ht] using hInv
          | some c =>
            by_cases hgt : c.close > piv
            · simpa [ht, hgt] using sessionInv_set_bias s hInv hpos .bullish
            · by_cases hlt : c.close < piv
              · simpa [ht, hgt, hlt] using sessionInv_set_bias s hInv hpos .bearish
              · simpa [ht, hgt, hlt] using sessionInv_set_bias s hInv hpos .neutral
  | monitor now fEod fSL fPT =>
    rcases monitorTick_state s now fEod fSL fPT with hm | hm
    · rw [hm]; exact hInv
    · rw [hm]; exact sessionInv_clear s hInv
  | enter bias piv b t1 t2 out1 out2 hb hnn hpiv hpos =>
    rcases enter_position_state s (if bias = .bullish then .call else .put)
        piv b t1 t2 out1 out2 with he | ⟨hce, pr, hpr1, hpr2, he⟩
    · rw [he]; exact hInv
    · rw [he]
      obtain ⟨hcount, -⟩ := can_enter_trade_true s hce
      refine ⟨?_, ?_, ?_, ?_⟩
      · show s.executed_trades_count + 1 ≤ MAX_DAILY_TRADES
        unfold MAX_DAILY_TRADES at hcount ⊢
        omega
      · intro _
        show 1 ≤ s.executed_trades_count + 1
        omega
      · simp [SessionState.openCount, Option.isSome]
      · show s.daily_bias = some (Direction.impliedBias
          (if bias = .bullish then .call else .put))
        rw [hb]
        cases bias with
        | bullish => rfl
        | bearish => rfl
        | neutral => exact absurd rfl hnn

/-- Witness for C1: the invariants hold concretely after the daily reset of a
fresh session. -/
theorem C1_session_invariants_witness :
    SessionInv (reset_daily_state SessionState.init 0 []) :=
  C1_session_invariants SessionState.init (reset_daily_state SessionState.init 0 [])
    ⟨by norm_num [MAX_DAILY_TRADES, SessionState.init],
      by intro h; simp [SessionState.init] at h,
      by simp [SessionState.openCount, SessionState.init],
      trivial⟩
    (Step.reset SessionState.init 0 [])

/-- Claim C2: an entry attempt aborts leaving the session state completely
unchanged (no position created, no counter increment, no buy order) whenever
the daily cap is reached or a position is open (`can_enter_trade` false),
either option-price read is unavailable or non-positive, or the two reads
diverge by more than 5% of the first read. -/
theorem C2_entry_abort_unchanged
    (s : SessionState) (dir : Direction) (piv : ℚ) (b : CircuitBreaker)
    (t1 t2 : ℚ) (o1 o2 : List (Option ℚ))
    (habort : can_enter_trade s = false ∨
      (fetch_option_price b t1 o1).1.value = none ∨
      (fetch_option_price (fetch_option_price b t1 o1).2 t2 o2).1.value = none ∨
      (∃ v, (fetch_option_price b t1 o1).1.value = some v ∧ v ≤ 0) ∨
      (∃ w, (fetch_option_price (fetch_option_price b t1 o1).2 t2 o2).1.value = some w ∧
        w ≤ 0) ∨
      (∃ v w, (fetch_option_price b t1 o1).1.value = some v ∧
        (fetch_option_price (fetch_option_price b t1 o1).2 t2 o2).1.value = some w ∧
        |w - v| / v > 5/100)) :
    (enter_position s dir piv b t1 t2 o1 o2).1 = s ∧
    (enter_position s dir piv b t1 t2 o1 o2).2.2 = false := by
  unfold enter_position
  by_cases hce : can_enter_trade s = false
  · rw [if_pos hce]
    exact ⟨rfl, rfl⟩
  · rw [if_neg hce]
    dsimp only
    cases hv2 : (fetch_option_price (fetch_option_price b t1 o1).2 t2 o2).1.value with
    | none =>
      cases hv1 : (fetch_option_price b t1 o1).1.value <;> exact ⟨rfl, rfl⟩
    | some confirm =>
      cases hv1 : (fetch_option_price b t1 o1).1.value with
      | none => exact ⟨rfl, rfl⟩
      | some first =>
        dsimp only
        have hg : first ≤ 0 ∨ confirm ≤ 0 ∨ |confirm - first| / first > 5/100 := by
          rcases habort with h | h | h | ⟨v, hv, hle⟩ | ⟨w, hw, hle⟩ | ⟨v, w, hv, hw, hdiv⟩
          · exact absurd h hce
          · rw [hv1] at h; cases h
          · rw [hv2] at h; cases h
          · rw [hv1] at hv; cases hv; exact Or.inl hle
          · rw [hv2] at hw; cases hw; exact Or.inr (Or.inl hle)
          · rw [hv1] at hv; cases hv
            rw [hv2] at hw; cases hw
            exact Or.inr (Or.inr hdiv)
        rw [if_pos hg]
        exact ⟨rfl, rfl⟩

/-- Witness for C2: with three straight upstream exceptions on the first
read, entry aborts and the fresh session is unchanged. -/
theorem C2_entry_abort_unchanged_witness :
    (enter_position SessionState.init .call 95 (CircuitBreaker.init 5 300) 1 1
      [none, none, none] [none, none, none]).1 = SessionState.init ∧
    (enter_position SessionState.init .call 95 (CircuitBreaker.init 5 300) 1 1
      [none, none, none] [none, none, none]).2.2 = false :=
  C2_entry_abort_unchanged SessionState.init .call 95 (CircuitBreaker.init 5 300) 1 1
    [none, none, none] [none, none, none] (Or.inr (Or.inl (by decide)))

/-- Claim C3 (amended): on every tick with an open position and the wall
clock at or past the EOD cutoff, the position is exited immediately with
reason EOD_EXIT regardless of what the monitoring prices would have
triggered — the forced-exit check runs before the stop-loss and
profit-target checks — and the exit price falls back to the position's
*entry* price when the fresh quote is unavailable. -/
theorem C3_eod_exit_first
    (s : SessionState) (p : Position) (now : ℚ) (fEod fSL fPT : Option ℚ)
    (hp : s.current_position = some p) (ht : EOD_EXIT ≤ now) :
    ∃ r : ExitRec,
      monitorTick s now fEod fSL fPT = ({ s with current_position := none }, some r) ∧
      r.reason = .eod_exit ∧
      (fEod = none → r.price = p.entry_price) ∧
      (∀ pr, fEod = some pr → pr ≠ 0 → r.price = pr) := by
  unfold monitorTick
  rw [hp]
  rw [if_pos (by exact ht : now ≥ EOD_EXIT)]
  unfold force_eod_exit
  rw [hp]
  unfold exit_position
  rw [hp]
  cases fEod with
  | none =>
    refine ⟨⟨p.entry_price, .eod_exit⟩, rfl, rfl, fun _ => rfl, ?_⟩
    intro pr h
    cases h
  | some pr =>
    by_cases hz : pr = 0
    · refine ⟨⟨p.entry_price, .eod_exit⟩, by simp [hz], rfl, ?_, ?_⟩
      · intro h
        cases h
      · intro pr' h hne
        cases h
        exact absurd hz hne
    · refine ⟨⟨pr, .eod_exit⟩, by simp [hz], rfl, ?_, ?_⟩
      · intro h
        cases h
      · intro pr' h _
        cases h
        rfl

/-- The open position used in the C3 scenario: entered at 100 with stop 90
and target 110. -/
def c3pos : Position :=
  { direction := .call, entry_price := 100, quantity := 65, invested := 6500,
    profit_target := 110, stop_loss := 90, pivot := 18500 }

/-- Session holding `c3pos` on trading day 1. -/
def c3s : SessionState :=
  { executed_trades_count := 1, current_position := some c3pos,
    daily_bias := some .bullish, daily_pivot_point := some 18500,
    last_trading_date := some 1 }

/-- Witness for C3: with the quote unavailable at the cutoff, the session
exits with reason EOD_EXIT at the entry price 100. -/
theorem C3_eod_exit_first_witness :
    ∃ r : ExitRec,
      monitorTick c3s EOD_EXIT none (some 90) (some 110) =
        ({ c3s with current_position := none }, some r) ∧
      r.reason = .eod_exit ∧ r.price = 100 := by
  obtain ⟨r, h1, h2, h3, -⟩ :=
    C3_eod_exit_first c3s c3pos EOD_EXIT none (some 90) (some 110) rfl le_rfl
  exact ⟨r, h1, h2, h3 rfl⟩

/-- Counterexample to C3 as stated: on a pre-cutoff monitoring tick the
fetches return a fresh quote of 105 (the last known price) and the position
survives; on the cutoff tick the quote is unavailable and the code exits at
the entry price 100, not at the last known price 105. -/
theorem C3_counterexample :
    monitorTick c3s 600 none (some 105) (some 105) = (c3s, none) ∧
    (monitorTick c3s 920 none none none).2 = some ⟨100, .eod_exit⟩ ∧
    (100 : ℚ) ≠ 105 := by
  have hpre : ¬((600:ℚ) ≥ EOD_EXIT) := by norm_num [EOD_EXIT]
  have hcut : ((920:ℚ) ≥ EOD_EXIT) := by norm_num [EOD_EXIT]
  have hsl : ¬((105:ℚ) ≤ c3pos.stop_loss) := by norm_num [c3pos]
  have hpt : ¬((105:ℚ) ≥ c3pos.profit_target) := by norm_num [c3pos]
  have hc : c3s.current_position = some c3pos := rfl
  refine ⟨?_, ?_, by norm_num⟩
  · simp [monitorTick, hc, hpre, check_stop_loss, hsl, check_profit_target, hpt]
  · simp [monitorTick, hc, hcut, force_eod_exit, exit_position, c3pos]

/-- Claim C4 (amended): `calculate_itm_strike` returns, for CALL, the
greatest multiple of the 100-point step that is ≤ spot (floor to step, for
every spot); for PUT it computes `int((spot + 99) // 100) * 100`, which is
the least multiple of 100 that is ≥ spot whenever spot is a whole multiple
of 100 or lies at least 1 point above the multiple below it (in particular
for every integral spot); for fractional spot strictly between a multiple of
100 and that multiple + 1 it instead returns the multiple below spot. -/
theorem C4_itm_strike_rounding (spot : ℚ) :
    ((calculate_itm_strike spot .call : ℚ) ≤ spot ∧
      spot < (calculate_itm_strike spot .call : ℚ) + 100 ∧
      (100 : ℤ) ∣ calculate_itm_strike spot .call) ∧
    ((spot = 100 * (⌊spot / 100⌋ : ℚ) ∨ 100 * (⌊spot / 100⌋ : ℚ) + 1 ≤ spot) →
      spot ≤ (calculate_itm_strike spot .put : ℚ) ∧
      (calculate_itm_strike spot .put : ℚ) < spot + 100 ∧
      (100 : ℤ) ∣ calculate_itm_strike spot .put) ∧
    ((100 * (⌊spot / 100⌋ : ℚ) < spot ∧ spot < 100 * (⌊spot / 100⌋ : ℚ) + 1) →
      calculate_itm_strike spot .put = ⌊spot / 100⌋ * 100 ∧
      (calculate_itm_strike spot .put : ℚ) < spot) := by
  have h100 : (0:ℚ) < 100 := by norm_num
  refine ⟨?_, ?_, ?_⟩
  · refine ⟨?_, ?_, ?_⟩
    · show ((⌊spot / 100⌋ * 100 : ℤ) : ℚ) ≤ spot
      have h : ((⌊spot / 100⌋ : ℤ) : ℚ) * 100 ≤ spot :=
        (le_div_iff₀ h100).mp (Int.floor_le (spot / 100))
      push_cast
      linarith
    · show spot < ((⌊spot / 100⌋ * 100 : ℤ) : ℚ) + 100
      have h : spot < (((⌊spot / 100⌋ : ℤ) : ℚ) + 1) * 100 :=
        (div_lt_iff₀ h100).mp (Int.lt_floor_add_one (spot / 100))
      push_cast
      linarith
    · show (100 : ℤ) ∣ ⌊spot / 100⌋ * 100
      exact dvd_mul_left _ _
  · intro hcase
    have hm1 : ((⌊(spot + 99) / 100⌋ : ℤ) : ℚ) * 100 ≤ spot + 99 :=
      (le_div_iff₀ h100).mp (Int.floor_le ((spot + 99) / 100))
    have hm2 : spot + 99 < (((⌊(spot + 99) / 100⌋ : ℤ) : ℚ) + 1) * 100 :=
      (div_lt_iff₀ h100).mp (Int.lt_floor_add_one ((spot + 99) / 100))
    refine ⟨?_, ?_, ?_⟩
    · show spot ≤ ((⌊(spot + 99) / 100⌋ * 100 : ℤ) : ℚ)
      rcases hcase with h | h
      · have heq : ⌊(spot + 99) / 100⌋ = ⌊spot / 100⌋ := by
          rw [Int.floor_eq_iff]
          constructor
          · rw [le_div_iff₀ h100]
            linarith [h]
          · rw [div_lt_iff₀ h100]
            linarith [h]
        rw [heq]
        push_cast
        linarith [h]
      · have hk2 : spot < (((⌊spot / 100⌋ : ℤ) : ℚ) + 1) * 100 :=
          (div_lt_iff₀ h100).mp (Int.lt_floor_add_one (spot / 100))
        have hge : ⌊spot / 100⌋ + 1 ≤ ⌊(spot + 99) / 100⌋ := by
          rw [Int.le_floor, le_div_iff₀ h100]
          push_cast
          linarith
        have hge' : (((⌊spot / 100⌋ : ℤ) : ℚ) + 1) * 100 ≤
            ((⌊(spot + 99) / 100⌋ : ℤ) : ℚ) * 100 := by
          have : ((⌊spot / 100⌋ + 1 : ℤ) : ℚ) ≤ ((⌊(spot + 99) / 100⌋ : ℤ) : ℚ) := by
            exact_mod_cast hge
          push_cast at this ⊢
          linarith
        push_cast
        push_cast at hge'
        linarith
    · show ((⌊(spot + 99) / 100⌋ * 100 : ℤ) : ℚ) < spot + 100
      push_cast
      linarith
    · show (100 : ℤ) ∣ ⌊(spot + 99) / 100⌋ * 100
      exact dvd_mul_left _ _
  · intro hgap
    obtain ⟨h1, h2⟩ := hgap
    have heq : ⌊(spot + 99) / 100⌋ = ⌊spot / 100⌋ := by
      rw [Int.floor_eq_iff]
      constructor
      · rw [le_div_iff₀ h100]
        linarith
      · rw [div_lt_iff₀ h100]
        linarith
    constructor
    · show ⌊(spot + 99) / 100⌋ * 100 = ⌊spot / 100⌋ * 100
      rw [heq]
    · show ((⌊(spot + 99) / 100⌋ * 100 : ℤ) : ℚ) < spot
      rw [heq]
      push_cast
      linarith

/-- Witness for C4 (amended): at spot 18512.35 CALL floors to 18500 and PUT
ceils to 18600, while at the in-gap spot 100.5 the PUT strike drops to the
multiple 100 below spot. -/
theorem C4_itm_strike_rounding_witness :
    calculate_itm_strike (1851235/100) .call = 18500 ∧
    calculate_itm_strike (1851235/100) .put = 18600 ∧
    (1851235/100 : ℚ) ≤ ((calculate_itm_strike (1851235/100) .put : ℤ) : ℚ) ∧
    calculate_itm_strike (201/2) .put = ⌊(201/2 : ℚ) / 100⌋ * 100 ∧
    ((calculate_itm_strike (201/2) .put : ℤ) : ℚ) < 201/2 := by
  refine ⟨by norm_num [calculate_itm_strike], by norm_num [calculate_itm_strike],
    ?_, ?_, ?_⟩
  · exact ((C4_itm_strike_rounding (1851235/100)).2.1
      (by norm_num [Int.floor_eq_iff])).1
  · exact ((C4_itm_strike_rounding (201/2)).2.2
      (by constructor <;> norm_num [Int.floor_eq_iff])).1
  · exact ((C4_itm_strike_rounding (201/2)).2.2
      (by constructor <;> norm_num [Int.floor_eq_iff])).2

/-- Counterexample to C4 as stated: at spot 100.5 the PUT strike computed by
the code is 100, which is *below* spot, not the least multiple of 100 ≥
spot (that would be 200). -/
theorem C4_counterexample :
    calculate_itm_strike (201/2) .put = 100 ∧
    ¬((201/2 : ℚ) ≤ ((calculate_itm_strike (201/2) .put : ℤ) : ℚ)) := by
  have hv : calculate_itm_strike (201/2) .put = 100 := by
    norm_num [calculate_itm_strike]
  refine ⟨hv, ?_⟩
  intro h
  rw [hv] at h
  norm_num at h

/-- Claim C9: under the preconditions (pivot computed, opening-range window
ended) `determine_daily_bias` maps the opening candle's close strictly above
the pivot to BULLISH, strictly below to BEARISH and exactly equal to
NEUTRAL; when the opening candle is unavailable the call is a no-op (bias
stays UNSET, nothing locks); and once the bias holds any non-UNSET value,
every later call is a no-op. -/
theorem C9_bias_determination :
    (∀ (s : SessionState) (now biasEnd piv : ℚ) (c : Candle),
      s.daily_bias = none → s.daily_pivot_point = some piv → biasEnd ≤ now →
      (determine_daily_bias s now biasEnd (some c)).daily_bias =
        some (if c.close > piv then .bullish
              else if c.close < piv then .bearish else .neutral)) ∧
    (∀ (s : SessionState) (now biasEnd : ℚ),
      determine_daily_bias s now biasEnd none = s) ∧
    (∀ (s : SessionState) (now biasEnd : ℚ) (cnd : Option Candle) (b : Bias),
      s.daily_bias = some b → determine_daily_bias s now biasEnd cnd = s) := by
  refine ⟨?_, ?_, ?_⟩
  · intro s now biasEnd piv c hb hp ht
    have hnt : ¬now < biasEnd := not_lt.mpr ht
    by_cases hgt : c.close > piv
    · simp [determine_daily_bias, hb, hp, hnt, hgt]
    · by_cases hlt : c.close < piv
      · simp [determine_daily_bias, hb, hp, hnt, hgt, hlt]
      · simp [determine_daily_bias, hb, hp, hnt, hgt, hlt]
  · intro s now biasEnd
    unfold determine_daily_bias
    cases hb : s.daily_bias with
    | some b => simp
    | none =>
      simp only [Option.isSome_none, Bool.false_eq_true, if_false]
      cases hp : s.daily_pivot_point with
      | none => rfl
      | some piv =>
        by_cases ht : now < biasEnd
        · simp [ht]
        · simp [ht]
  · intro s now biasEnd cnd b hb
    unfold determine_daily_bias
    rw [hb]
    simp

/-- Witness for C9: with pivot 95 and opening close 96, the bias locks
BULLISH; a later call leaves it BULLISH. -/
theorem C9_bias_determination_witness :
    (determine_daily_bias
      { SessionState.init with daily_pivot_point := some 95 } 330 320
      (some ⟨1, 95, 97, 94, 96⟩)).daily_bias = some .bullish ∧
    determine_daily_bias
      { SessionState.init with daily_bias := some .bullish } 400 320
      (some ⟨1, 95, 97, 94, 90⟩) =
      { SessionState.init with daily_bias := some .bullish } := by
  constructor
  · rw [C9_bias_determination.1
      { SessionState.init with daily_pivot_point := some 95 } 330 320 95
      ⟨1, 95, 97, 94, 96⟩ rfl rfl (by norm_num)]
    norm_num
  · exact C9_bias_determination.2.2
      { SessionState.init with daily_bias := some .bullish } 400 320
      (some ⟨1, 95, 97, 94, 90⟩) .bullish rfl

/-- The completed daily candle (H=100, L=90, C=95) that becomes available
only after the failed reset in the C5 scenario. -/
def c5candle : Candle := { date := 0, openP := 95, high := 100, low := 90, close := 95 }

/-- Claim C5 (the code contradicts it): after a daily reset on day 1 whose
pivot fetch found no completed candle, `last_trading_date` is already 1, so
every later `reset_daily_state` call that day is a no-op — even when the
candle data has arrived and `fetch_and_calculate_pivot` would now yield
95 — and no other session operation ever assigns `daily_pivot_point`; the
pivot therefore stays `None` for the rest of the day. -/
theorem C5_pivot_not_reattempted :
    (reset_daily_state SessionState.init 1 []).daily_pivot_point = none ∧
    (reset_daily_state SessionState.init 1 []).last_trading_date = some 1 ∧
    fetch_and_calculate_pivot [c5candle] 1 = some 95 ∧
    reset_daily_state (reset_daily_state SessionState.init 1 []) 1 [c5candle] =
      reset_daily_state SessionState.init 1 [] ∧
    (∀ s : SessionState, s.daily_pivot_point = none →
      (∀ (now biasEnd : ℚ) (cnd : Option Candle),
        (determine_daily_bias s now biasEnd cnd).daily_pivot_point = none) ∧
      (∀ (now : ℚ) (f1 f2 f3 : Option ℚ),
        (monitorTick s now f1 f2 f3).1.daily_pivot_point = none) ∧
      (∀ (dir : Direction) (piv : ℚ) (b : CircuitBreaker) (t1 t2 : ℚ)
          (o1 o2 : List (Option ℚ)),
        (enter_position s dir piv b t1 t2 o1 o2).1.daily_pivot_point = none) ∧
      (∀ (d : ℤ) (candles : List Candle), s.last_trading_date = some d →
        (reset_daily_state s d candles).daily_pivot_point = none)) := by
  have hpfilter : ([c5candle].filter (fun c => c.date < 1)) = [c5candle] := by
    simp [c5candle]
  have hpivot : fetch_and_calculate_pivot [c5candle] 1 = some 95 := by
    unfold fetch_and_calculate_pivot
    rw [if_neg (by simp)]
    simp only [hpfilter, List.mergeSort_singleton, List.getLast?_singleton]
    norm_num [c5candle, round2]
  refine ⟨rfl, rfl, hpivot, rfl, ?_⟩
  intro s hpiv
  refine ⟨?_, ?_, ?_, ?_⟩
  · intro now biasEnd cnd
    unfold determine_daily_bias
    rw [hpiv]
    split
    · exact hpiv
    · exact hpiv
  · intro now f1 f2 f3
    rcases monitorTick_state s now f1 f2 f3 with h | h
    · rw [h]; exact hpiv
    · rw [h]; exact hpiv
  · intro dir piv b t1 t2 o1 o2
    rcases enter_position_state s dir piv b t1 t2 o1 o2 with h | ⟨-, pr, -, -, h⟩
    · rw [h]; exact hpiv
    · rw [h]; exact hpiv
  · intro d candles hd
    rw [reset_daily_state, if_pos hd]
    exact hpiv

/-- Witness for C5's universally quantified part: after the failed day-1
reset no later same-day operation restores the pivot. -/
theorem C5_pivot_not_reattempted_witness :
    (determine_daily_bias (reset_daily_state SessionState.init 1 []) 330 320
      (some c5candle)).daily_pivot_point = none ∧
    (reset_daily_state (reset_daily_state SessionState.init 1 []) 1
      [c5candle]).daily_pivot_point = none := by
  have h := C5_pivot_not_reattempted.2.2.2.2 (reset_daily_state SessionState.init 1 []) rfl
  exact ⟨h.1 330 320 (some c5candle), h.2.2.2 1 [c5candle] rfl⟩

lemma fetchAttempts_cons_fail (lo hi : ℚ) (o : Option ℚ)
    (ho : failingOutcome lo hi o) (x : Option ℚ) (xs : List (Option ℚ)) :
    fetchAttempts lo hi (o :: x :: xs) =
      ⟨(fetchAttempts lo hi (x :: xs)).value,
        (fetchAttempts lo hi (x :: xs)).successes,
        (fetchAttempts lo hi (x :: xs)).failures,
        (fetchAttempts lo hi (x :: xs)).attempts + 1⟩ := by
  rcases ho with h | ⟨v, hv, hnr⟩
  · subst h
    rfl
  · subst hv
    simp only [fetchAttempts, if_neg hnr]

lemma fetchAttempts_first_success (lo hi : ℚ) :
    ∀ (pre : List (Option ℚ)) (v : ℚ) (rest : List (Option ℚ)),
      (∀ o ∈ pre, failingOutcome lo hi o) → lo ≤ v → v ≤ hi →
      fetchAttempts lo hi (pre ++ some v :: rest) = ⟨some v, 1, 0, pre.length + 1⟩ := by
  intro pre
  induction pre with
  | nil =>
    intro v rest hpre hlo hhi
    cases rest with
    | nil => simp [fetchAttempts, hlo, hhi]
    | cons x xs => simp [fetchAttempts, hlo, hhi]
  | cons o pre' ih =>
    intro v rest hpre hlo hhi
    have ho : failingOutcome lo hi o := hpre o (List.mem_cons_self o pre')
    have hpre' : ∀ o' ∈ pre', failingOutcome lo hi o' :=
      fun o' h => hpre o' (List.mem_cons_of_mem o h)
    cases hsplit : pre' ++ some v :: rest with
    | nil => exact absurd hsplit (List.append_ne_nil_of_right_ne_nil pre' (by simp))
    | cons x xs =>
      rw [List.cons_append, hsplit, fetchAttempts_cons_fail lo hi o ho x xs, ← hsplit,
        ih v rest hpre' hlo hhi]
      simp [List.length_cons]

lemma fetchAttempts_all_fail (lo hi : ℚ) :
    ∀ (outs : List (Option ℚ)), outs ≠ [] →
      (∀ o ∈ outs, failingOutcome lo hi o) →
      fetchAttempts lo hi outs = ⟨none, 0, 1, outs.length⟩ := by
  intro outs
  induction outs with
  | nil => intro h; exact absurd rfl h
  | cons o rest ih =>
    intro _ hall
    have ho : failingOutcome lo hi o := hall o (List.mem_cons_self o rest)
    cases rest with
    | nil =>
      rcases ho with h | ⟨v, hv, hnr⟩
      · subst h; rfl
      · subst hv
        simp [fetchAttempts, hnr]
    | cons x xs =>
      rw [fetchAttempts_cons_fail lo hi o ho x xs,
        ih (by simp) (fun o' h => hall o' (List.mem_cons_of_mem o h))]
      simp [List.length_cons]

/-- Claim C6: the resilient fetch fails fast with no attempt and no breaker
record when the breaker is open; the first in-range value among the attempt
outcomes is returned immediately with exactly one breaker success and no
failure (in particular after any prefix of k failing attempts followed by a
success); an out-of-range quote consumes a retry exactly like a transport
failure; and a run in which every attempt fails records exactly one breaker
failure and returns `None`. -/
theorem C6_resilient_fetch :
    (∀ (b : CircuitBreaker) (now lo hi : ℚ) (outs : List (Option ℚ)),
      (b.is_open now).1 = true →
      (fetchPriceB b now lo hi outs).1 = ⟨none, 0, 0, 0⟩) ∧
    (∀ (lo hi : ℚ) (pre : List (Option ℚ)) (v : ℚ) (rest : List (Option ℚ)),
      (∀ o ∈ pre, failingOutcome lo hi o) → lo ≤ v → v ≤ hi →
      fetchAttempts lo hi (pre ++ some v :: rest) = ⟨some v, 1, 0, pre.length + 1⟩) ∧
    (∀ (lo hi v : ℚ) (rest : List (Option ℚ)), ¬(lo ≤ v ∧ v ≤ hi) →
      fetchAttempts lo hi (some v :: rest) = fetchAttempts lo hi (none :: rest)) ∧
    (∀ (lo hi : ℚ) (outs : List (Option ℚ)), outs ≠ [] →
      (∀ o ∈ outs, failingOutcome lo hi o) →
      fetchAttempts lo hi outs = ⟨none, 0, 1, outs.length⟩) := by
  refine ⟨?_, fetchAttempts_first_success, ?_, fetchAttempts_all_fail⟩
  · intro b now lo hi outs hopen
    unfold fetchPriceB
    simp [hopen]
  · intro lo hi v rest hnr
    cases rest with
    | nil => simp [fetchAttempts, hnr]
    | cons x xs => simp only [fetchAttempts, if_neg hnr]

/-- Witness for C6: a breaker opened at time 10 and polled at time 20 fails
fast; one exception and one out-of-range quote followed by the in-range 500
return 500 with one success recorded; three failing attempts record one
failure. -/
theorem C6_resilient_fetch_witness :
    (fetchPriceB ⟨5, 5, 300, some 10⟩ 20 1 1000 [some 500]).1 = ⟨none, 0, 0, 0⟩ ∧
    fetchAttempts 1 1000 [none, some 5000, some 500] = ⟨some 500, 1, 0, 3⟩ ∧
    fetchAttempts 1 1000 [none, some 5000, none] = ⟨none, 0, 1, 3⟩ := by
  refine ⟨?_, ?_, ?_⟩
  · exact C6_resilient_fetch.1 _ 20 1 1000 [some 500] (by norm_num [CircuitBreaker.is_open])
  · have h := C6_resilient_fetch.2.1 1 1000 [none, some 5000] 500 []
      (by
        intro o ho
        simp only [List.mem_cons, List.not_mem_nil, or_false] at ho
        rcases ho with rfl | rfl
        · exact Or.inl rfl
        · exact Or.inr ⟨5000, rfl, by norm_num⟩)
      (by norm_num) (by norm_num)
    simpa using h
  · exact C6_resilient_fetch.2.2.2 1 1000 [none, some 5000, none] (by simp)
      (by
        intro o ho
        simp only [List.mem_cons, List.not_mem_nil, or_false] at ho
        rcases ho with rfl | rfl | rfl
        · exact Or.inl rfl
        · exact Or.inr ⟨5000, rfl, by norm_num⟩
        · exact Or.inl rfl)

lemma record_failure_fields (b : CircuitBreaker) (now : ℚ) :
    (b.record_failure now).failure_count = b.failure_count + 1 ∧
    (b.record_failure now).threshold = b.threshold ∧
    (b.record_failure now).timeout = b.timeout := by
  unfold CircuitBreaker.record_failure
  split <;> exact ⟨rfl, rfl, rfl⟩

lemma recordFailures_fields :
    ∀ (ts : List ℚ) (b : CircuitBreaker),
      (recordFailures b ts).failure_count = b.failure_count + ts.length ∧
      (recordFailures b ts).threshold = b.threshold ∧
      (recordFailures b ts).timeout = b.timeout := by
  intro ts
  induction ts with
  | nil => intro b; exact ⟨rfl, rfl, rfl⟩
  | cons t ts' ih =>
    intro b
    have h1 := record_failure_fields b t
    have h2 := ih (b.record_failure t)
    unfold recordFailures at h2 ⊢
    rw [List.foldl_cons]
    refine ⟨?_, ?_, ?_⟩
    · rw [h2.1, h1.1]
      simp [List.length_cons]
      omega
    · rw [h2.2.1, h1.2.1]
    · rw [h2.2.2, h1.2.2]

lemma recordFailures_stamp :
    ∀ (ts : List ℚ) (hne : ts ≠ []) (b : CircuitBreaker),
      b.threshold ≤ b.failure_count + ts.length →
      (recordFailures b ts).opened_at = some (ts.getLast hne) := by
  intro ts
  induction ts with
  | nil => intro hne; exact absurd rfl hne
  | cons t ts' ih =>
    intro hne b hth
    cases ts' with
    | nil =>
      show (b.record_failure t).opened_at = some t
      unfold CircuitBreaker.record_failure
      rw [if_pos (by simpa using hth)]
    | cons u us =>
      show (recordFailures (b.record_failure t) (u :: us)).opened_at = _
      rw [List.getLast_cons (by simp : (u :: us) ≠ [])]
      apply ih
      rw [(record_failure_fields b t).1, (record_failure_fields b t).2.1]
      simp only [List.length_cons] at hth ⊢
      omega

lemma cbop_apply_threshold (b : CircuitBreaker) (op : CBOp) :
    (CBOp.apply b op).threshold = b.threshold := by
  cases op with
  | fail now =>
    show (b.record_failure now).threshold = b.threshold
    exact (record_failure_fields b now).2.1
  | succ => rfl
  | query now =>
    show ((b.is_open now).2).threshold = b.threshold
    unfold CircuitBreaker.is_open
    cases b.opened_at with
    | none => rfl
    | some t =>
      dsimp only
      split
      · rfl
      · split <;> rfl

lemma cbop_apply_inv (b : CircuitBreaker) (hth : 1 ≤ b.threshold)
    (hInv : CBInv b) (op : CBOp) (hop : op.posTime) : CBInv (CBOp.apply b op) := by
  obtain ⟨hiff, hpos⟩ := hInv
  cases op with
  | fail now =>
    show CBInv (b.record_failure now)
    unfold CircuitBreaker.record_failure
    by_cases hge : b.failure_count + 1 ≥ b.threshold
    · rw [if_pos hge]
      refine ⟨by simpa using hge, ?_⟩
      intro t ht
      simp only [Option.some_inj] at ht
      subst ht
      exact hop
    · rw [if_neg hge]
      constructor
      · simp only
        rw [hiff]
        omega
      · exact hpos
  | succ =>
    refine ⟨?_, ?_⟩
    · show (Option.none).isSome = true ↔ b.threshold ≤ 0
      simp
      omega
    · intro t ht
      exact absurd ht (by simp [CBOp.apply, CircuitBreaker.record_success])
  | query now =>
    show CBInv ((b.is_open now).2)
    unfold CircuitBreaker.is_open
    cases hoa : b.opened_at with
    | none => exact ⟨hiff, hpos⟩
    | some t =>
      dsimp only
      rw [if_neg (by exact ne_of_gt (hpos t hoa) : ¬t = 0)]
      split
      · refine ⟨?_, ?_⟩
        · show (Option.none).isSome = true ↔ b.threshold ≤ 0
          simp
          omega
        · intro u hu
          exact absurd hu (by simp)
      · exact ⟨hiff, hpos⟩

lemma runCBOps_inv :
    ∀ (ops : List CBOp) (b : CircuitBreaker), 1 ≤ b.threshold → CBInv b →
      (∀ op ∈ ops, op.posTime) → CBInv (runCBOps b ops) := by
  intro ops
  induction ops with
  | nil => intro b _ hInv _; exact hInv
  | cons op ops' ih =>
    intro b hth hInv hall
    show CBInv (runCBOps (CBOp.apply b op) ops')
    apply ih
    · rw [cbop_apply_threshold]; exact hth
    · exact cbop_apply_inv b hth hInv op (hall op (List.mem_cons_self op ops'))
    · exact fun o h => hall o (List.mem_cons_of_mem op h)

/-- Claim C7: starting closed, `threshold` consecutive `record_failure`
calls make `is_open` true; an open breaker stays open while at most
`cooldownSeconds` have elapsed and auto-closes (failure count 0, `opened_at`
cleared) as soon as strictly more have elapsed; one `record_success` always
resets the count and clears `opened_at`; and over every reachable trace of
operations (with positive wall-clock times) `opened_at` is set iff the
breaker is open (the failure count has reached the threshold). -/
theorem C7_circuit_breaker :
    (∀ (th : ℕ) (cd : ℚ) (ts : List ℚ) (now : ℚ) (hne : ts ≠ []),
      1 ≤ th → ts.length = th → 0 < ts.getLast hne →
      now - ts.getLast hne ≤ cd →
      ((recordFailures (CircuitBreaker.init th cd) ts).is_open now).1 = true) ∧
    (∀ (b : CircuitBreaker) (t now : ℚ), b.opened_at = some t → 0 < t →
      (now - t ≤ b.timeout → b.is_open now = (true, b)) ∧
      (now - t > b.timeout → b.is_open now =
        (false, { b with failure_count := 0, opened_at := none }))) ∧
    (∀ b : CircuitBreaker,
      b.record_success.failure_count = 0 ∧ b.record_success.opened_at = none) ∧
    (∀ (th : ℕ) (cd : ℚ) (ops : List CBOp), 1 ≤ th →
      (∀ op ∈ ops, op.posTime) →
      CBInv (runCBOps (CircuitBreaker.init th cd) ops)) := by
  refine ⟨?_, ?_, ?_, ?_⟩
  · intro th cd ts now hne hth hlen hpos helapsed
    have hstamp := recordFailures_stamp ts hne (CircuitBreaker.init th cd)
      (by simp [CircuitBreaker.init, hlen])
    have hfields := recordFailures_fields ts (CircuitBreaker.init th cd)
    unfold CircuitBreaker.is_open
    rw [hstamp]
    dsimp only
    rw [if_neg (by exact ne_of_gt hpos : ¬ts.getLast hne = 0)]
    rw [hfields.2.2, show (CircuitBreaker.init th cd).timeout = cd from rfl]
    rw [if_neg (by linarith : ¬now - ts.getLast hne > cd)]
  · intro b t now hoa htpos
    constructor
    · intro hle
      unfold CircuitBreaker.is_open
      rw [hoa]
      dsimp only
      rw [if_neg (by exact ne_of_gt htpos : ¬t = 0)]
      rw [if_neg (by linarith : ¬now - t > b.timeout)]
    · intro hgt
      unfold CircuitBreaker.is_open
      rw [hoa]
      dsimp only
      rw [if_neg (by exact ne_of_gt htpos : ¬t = 0)]
      rw [if_pos hgt]
  · intro b
    exact ⟨rfl, rfl⟩
  · intro th cd ops hth hall
    exact runCBOps_inv ops (CircuitBreaker.init th cd) hth
      ⟨by simp [CircuitBreaker.init]; omega, by simp [CircuitBreaker.init]⟩ hall

/-- Witness for C7: five failures at times 1..5 open the breaker (still open
at time 6); an open breaker polled after the cooldown auto-closes; a
concrete trace keeps the invariant. -/
theorem C7_circuit_breaker_witness :
    ((recordFailures (CircuitBreaker.init 5 300) [1, 2, 3, 4, 5]).is_open 6).1 = true ∧
    CircuitBreaker.is_open ⟨5, 5, 300, some 5⟩ 400 =
      (false, ⟨0, 5, 300, none⟩) ∧
    (CircuitBreaker.record_success ⟨5, 5, 300, some 5⟩).failure_count = 0 ∧
    CBInv (runCBOps (CircuitBreaker.init 5 300) [.fail 1, .succ, .query 2]) := by
  refine ⟨?_, ?_, ?_, ?_⟩
  · exact C7_circuit_breaker.1 5 300 [1, 2, 3, 4, 5] 6 (by simp) (by norm_num) rfl
      (by norm_num [List.getLast]) (by norm_num [List.getLast])
  · have h := (C7_circuit_breaker.2.1 ⟨5, 5, 300, some 5⟩ 5 400 rfl (by norm_num)).2
      (by norm_num)
    simpa using h
  · exact (C7_circuit_breaker.2.2.1 ⟨5, 5, 300, some 5⟩).1
  · exact C7_circuit_breaker.2.2.2 5 300 [.fail 1, .succ, .query 2] (by norm_num)
      (by
        intro op hop
        simp only [List.mem_cons, List.not_mem_nil, or_false] at hop
        rcases hop with rfl | rfl | rfl
        · exact (by norm_num : (0:ℚ) < 1)
        · trivial
        · exact (by norm_num : (0:ℚ) < 2))

lemma mem_date_le_getLast :
    ∀ (l : List Candle) (hne : l ≠ []),
      List.Pairwise (fun a b => a.date ≤ b.date) l →
      ∀ c ∈ l, c.date ≤ (l.getLast hne).date := by
  intro l
  induction l with
  | nil => intro hne; exact absurd rfl hne
  | cons a l' ih =>
    intro hne hp c hc
    cases l' with
    | nil =>
      simp only [List.mem_singleton] at hc
      subst hc
      exact le_refl _
    | cons b l'' =>
      rw [List.getLast_cons (by simp : b :: l'' ≠ [])]
      rcases List.mem_cons.mp hc with rfl | hc'
      · exact (List.pairwise_cons.mp hp).1 _ (List.getLast_mem (by simp))
      · exact ih (by simp) (List.pairwise_cons.mp hp).2 c hc'

/-- Claim C8: the pivot computation selects, among the fetched daily candles
dated strictly before today, one with the most recent date and returns
`round((H + L + C)/3, 2)` of it (H=100, L=90, C=95 giving exactly 95.00);
with no candle dated strictly before today it returns `None`. -/
theorem C8_pivot_computation :
    (∀ (candles : List Candle) (today : ℤ),
      (candles.filter (fun c => c.date < today) = [] →
        fetch_and_calculate_pivot candles today = none) ∧
      (∀ r, fetch_and_calculate_pivot candles today = some r →
        ∃ c ∈ candles.filter (fun c => c.date < today),
          (∀ c' ∈ candles.filter (fun c => c.date < today), c'.date ≤ c.date) ∧
          r = round2 ((c.high + c.low + c.close) / 3))) ∧
    fetch_and_calculate_pivot
      [{ date := 0, openP := 95, high := 100, low := 90, close := 95 }] 1 = some 95 := by
  constructor
  · intro candles today
    constructor
    · intro hf
      unfold fetch_and_calculate_pivot
      by_cases hc : candles = []
      · rw [if_pos hc]
      · rw [if_neg hc, hf, List.mergeSort_nil]
        rfl
    · intro r hr
      unfold fetch_and_calculate_pivot at hr
      by_cases hc : candles = []
      · rw [if_pos hc] at hr
        cases hr
      · rw [if_neg hc] at hr
        cases hgl : ((candles.filter (fun c => c.date < today)).mergeSort
            (fun a b => a.date ≤ b.date)).getLast? with
        | none =>
          rw [hgl] at hr
          cases hr
        | some prev =>
          rw [hgl] at hr
          have hne : (candles.filter (fun c => c.date < today)).mergeSort
              (fun a b => a.date ≤ b.date) ≠ [] := by
            intro h
            rw [h] at hgl
            cases hgl
          have hperm := List.mergeSort_perm (candles.filter (fun c => c.date < today))
            (fun a b => a.date ≤ b.date)
          have hsorted := @List.sorted_mergeSort Candle
            (fun a b : Candle => a.date ≤ b.date)
            (fun a b c hab hbc => by
              simp only [decide_eq_true_eq] at hab hbc ⊢
              exact le_trans hab hbc)
            (fun a b => by
              simp only [Bool.or_eq_true, decide_eq_true_eq]
              exact le_total a.date b.date)
            (candles.filter (fun c => c.date < today))
          have hpair : List.Pairwise (fun a b : Candle => a.date ≤ b.date)
              ((candles.filter (fun c => c.date < today)).mergeSort
                (fun a b => a.date ≤ b.date)) :=
            hsorted.imp (by simp only [decide_eq_true_eq]; exact fun h => h)
          have hprev : prev = ((candles.filter (fun c => c.date < today)).mergeSort
              (fun a b => a.date ≤ b.date)).getLast hne := by
            have := List.getLast?_eq_getLast _ hne
            rw [hgl] at this
            exact Option.some_injective _ this
          refine ⟨prev, ?_, ?_, ?_⟩
          · rw [← hperm.mem_iff]
            rw [hprev]
            exact List.getLast_mem hne
          · intro c' hc'
            have hc'' : c' ∈ (candles.filter (fun c => c.date < today)).mergeSort
                (fun a b => a.date ≤ b.date) := hperm.mem_iff.mpr hc'
            rw [hprev]
            exact mem_date_le_getLast _ hne hpair c' hc''
          · cases hr
            rfl
  · have hfilter : (([{ date := 0, openP := 95, high := 100, low := 90, close := 95 }] :
        List Candle).filter (fun c => c.date < 1)) =
        [{ date := 0, openP := 95, high := 100, low := 90, close := 95 }] := by
      simp
    unfold fetch_and_calculate_pivot
    rw [if_neg (by simp)]
    simp only [hfilter, List.mergeSort_singleton, List.getLast?_singleton]
    norm_num [round2]

/-- Witness for C8: an empty candle list yields `None`, and the concrete
H=100/L=90/C=95 candle is selected as the maximal completed day. -/
theorem C8_pivot_computation_witness :
    fetch_and_calculate_pivot [] 1 = none ∧
    ∃ c ∈ (([{ date := 0, openP := 95, high := 100, low := 90, close := 95 }] :
        List Candle).filter (fun c => c.date < 1)),
      (∀ c' ∈ (([{ date := 0, openP := 95, high := 100, low := 90, close := 95 }] :
        List Candle).filter (fun c => c.date < 1)), c'.date ≤ c.date) ∧
      (95 : ℚ) = round2 ((c.high + c.low + c.close) / 3) :=
  ⟨(C8_pivot_computation.1 [] 1).1 rfl,
    (C8_pivot_computation.1
      [{ date := 0, openP := 95, high := 100, low := 90, close := 95 }] 1).2 95
      C8_pivot_computation.2⟩

/-- The position installed by the C10 witness entry: both reads 100, so
entry 100, quantity 65, target 110, stop 90. -/
def c10pos : Position :=
  { direction := .call, entry_price := 100, quantity := 65, invested := 6500,
    profit_target := 110, stop_loss := 90, pivot := 95 }

/-- Claim C10: every non-`None` spot-price fetch result lies in
[MIN_SPOT_PRICE, MAX_SPOT_PRICE] and every option-price result in
[MIN_OPTION_PRICE, MAX_OPTION_PRICE]; hence a newly entered position's
entry price is at least MIN_OPTION_PRICE = 1, so it is strictly positive
and the P&L-percentage divisor is never zero. -/
theorem C10_price_ranges :
    (∀ (b : CircuitBreaker) (now : ℚ) (outs : List (Option ℚ)) (v : ℚ),
      (fetch_spot_price b now outs).1.value = some v →
      MIN_SPOT_PRICE ≤ v ∧ v ≤ MAX_SPOT_PRICE) ∧
    (∀ (b : CircuitBreaker) (now : ℚ) (outs : List (Option ℚ)) (v : ℚ),
      (fetch_option_price b now outs).1.value = some v →
      MIN_OPTION_PRICE ≤ v ∧ v ≤ MAX_OPTION_PRICE) ∧
    (∀ (s : SessionState) (dir : Direction) (piv : ℚ) (b : CircuitBreaker)
        (t1 t2 : ℚ) (o1 o2 : List (Option ℚ)) (p : Position),
      s.current_position = none →
      (enter_position s dir piv b t1 t2 o1 o2).1.current_position = some p →
      MIN_OPTION_PRICE ≤ p.entry_price ∧ 0 < p.entry_price ∧ p.entry_price ≠ 0) ∧
    (∀ (p : Position) (x : ℚ), 0 < p.entry_price →
      pnl_percent p.entry_price x * p.entry_price = (x - p.entry_price) * 100) := by
  refine ⟨?_, ?_, ?_, ?_⟩
  · intro b now outs v h
    exact fetchPriceB_inRange b now _ _ outs v h
  · intro b now outs v h
    exact fetchPriceB_inRange b now _ _ outs v h
  · intro s dir piv b t1 t2 o1 o2 p hnone hsome
    rcases enter_position_state s dir piv b t1 t2 o1 o2 with he | ⟨-, pr, hpr1, -, he⟩
    · rw [he, hnone] at hsome
      cases hsome
    · rw [he] at hsome
      simp only [Option.some_inj] at hsome
      subst hsome
      refine ⟨hpr1, by linarith [hpr1], ?_⟩
      intro h0
      have h0' : pr = 0 := h0
      rw [h0'] at hpr1
      norm_num at hpr1
  · intro p x hpos
    unfold pnl_percent
    field_simp

/-- Witness for C10: a fetched spot of 18500 is in range, and the entry with
both option-price reads equal to 100 installs a position with entry price
100 ≥ 1 ≠ 0. -/
theorem C10_price_ranges_witness :
    (MIN_SPOT_PRICE ≤ (18500:ℚ) ∧ (18500:ℚ) ≤ MAX_SPOT_PRICE) ∧
    (MIN_OPTION_PRICE ≤ c10pos.entry_price ∧ 0 < c10pos.entry_price ∧
      c10pos.entry_price ≠ 0) := by
  constructor
  · exact C10_price_ranges.1 (CircuitBreaker.init 5 300) 1 [some 18500] 18500 rfl
  · refine C10_price_ranges.2.2.1 SessionState.init .call 95 (CircuitBreaker.init 5 300)
      1 2 [some 100] [some 100] c10pos rfl ?_
    norm_num [enter_position, can_enter_trade, SessionState.init, MAX_DAILY_TRADES,
      fetch_option_price, fetchPriceB, CircuitBreaker.is_open, CircuitBreaker.init,
      CircuitBreaker.record_success, CircuitBreaker.record_failure,
      fetchAttempts, MIN_OPTION_PRICE, MAX_OPTION_PRICE, calculate_position_size,
      NIFTY_LOT_SIZE, TRADE_LOTS, round2, PROFIT_TARGET_PERCENT, STOP_LOSS_PERCENT,
      c10pos]

end PivotITM
